import Mathlib

/-!
Shallow embedding of the configuration engine in `conf/__init__.py`
(class `Settings` and the module-level function `merge_spec`).

Python strings are modelled as `List Char`, Python values as the inductive
`Value` below, the instance dictionary `Settings.__dict__` as an ordered
association list with string keys (`Store`).  Fallible Python code is
modelled in `Except PyErr`; `PyErr` names the exception classes that the
source can raise on the modelled paths.  Recursion through the store
(`_eval_param` calling `self.getValue` calling `_eval_param`) is made total
with an explicit fuel parameter; Python's `RecursionError` plays the role of
fuel exhaustion.  The model is ASCII-level: `str.isupper`, `str.upper` and
the `\w` regex class are interpreted on ASCII characters, which covers every
setting name and value the repository manipulates.
-/

/-- Python exception classes that the modelled code can raise.  `attributeError`
is what `Settings.getValue` raises for an unknown setting (the spec calls it
`UnknownSetting`).  `evalError` stands for the `SyntaxError` that `eval` raises
when the accessor text of a `#PARAM` macro is not parseable, and
`recursionError` for Python's `RecursionError` (fuel exhaustion in the model). -/
inductive PyErr where
  | attributeError : PyErr
  | indexError : PyErr
  | keyError : PyErr
  | typeError : PyErr
  | nameError : PyErr
  | evalError : PyErr
  | recursionError : PyErr
deriving DecidableEq

/-- A Python string, modelled as its list of characters. -/
abbrev PyStr := List Char

/-- Convert a Lean string literal to the `PyStr` model. -/
def pystr (s : String) : PyStr := s.toList

/-- The single-quote character (written via its code point). -/
def sqc : Char := Char.ofNat 39

/-- The double-quote character. -/
def dqc : Char := Char.ofNat 34

/-- Opening curly brace character. -/
def obr : Char := Char.ofNat 123

/-- Closing curly brace character. -/
def cbr : Char := Char.ofNat 125

/-- Python values as they occur in settings: text, integers, booleans, `None`,
lists (tuples are merged into this case, as `_eval_param` treats them alike)
and dictionaries.  Dictionary keys are arbitrary values, as in Python;
insertion order is the list order. -/
inductive Value where
  | vstr : PyStr → Value
  | vint : Int → Value
  | vbool : Bool → Value
  | vnone : Value
  | vlist : List Value → Value
  | vdict : List (Value × Value) → Value

/-- `value is None` check used by `Settings.setValue` and `load_from_dict`. -/
def isNone : Value → Bool
  | Value.vnone => true
  | _ => false

/-- `isinstance(value, dict)` / `type(value) == dict` check (the source has no
dict subclasses, so the two coincide here). -/
def isDict : Value → Bool
  | Value.vdict _ => true
  | _ => false

/-- Values that Python refuses to hash (used for `in` on dicts and dict
subscripting). -/
def isUnhashable : Value → Bool
  | Value.vlist _ => true
  | Value.vdict _ => true
  | _ => false

mutual
/-- Python `==` between values, restricted to the value grammar of the model.
Booleans compare equal to the integers 1 and 0, as in Python.  Dictionaries
are compared entry-by-entry in order; Python's dict equality is order
insensitive, but on the code paths modelled here dictionaries are never
compared with `==` (dict keys are hashable, hence never dicts). -/
def pyEq : Value → Value → Bool
  | Value.vint m, Value.vint n => m == n
  | Value.vint m, Value.vbool b => m == (if b then (1 : Int) else 0)
  | Value.vbool b, Value.vint n => (if b then (1 : Int) else 0) == n
  | Value.vbool a, Value.vbool b => a == b
  | Value.vstr a, Value.vstr b => a == b
  | Value.vnone, Value.vnone => true
  | Value.vlist xs, Value.vlist ys => pyEqList xs ys
  | Value.vdict d1, Value.vdict d2 => pyEqPairs d1 d2
  | _, _ => false

/-- Elementwise Python `==` on lists. -/
def pyEqList : List Value → List Value → Bool
  | [], [] => true
  | x :: xs, y :: ys => pyEq x y && pyEqList xs ys
  | _, _ => false

/-- Entrywise Python `==` on dict entry lists. -/
def pyEqPairs : List (Value × Value) → List (Value × Value) → Bool
  | [], [] => true
  | (k1, v1) :: d1, (k2, v2) :: d2 => pyEq k1 k2 && pyEq v1 v2 && pyEqPairs d1 d2
  | _, _ => false
end

/-- Dictionary lookup: the value of the first entry whose key is `==` to `k`. -/
def lookupD (k : Value) : List (Value × Value) → Option Value
  | [] => none
  | (k0, v) :: rest => if pyEq k k0 then some v else lookupD k rest

/-- Prefix test on character lists. -/
def isPrefixL : PyStr → PyStr → Bool
  | [], _ => true
  | _ :: _, [] => false
  | a :: xs, b :: ys => a == b && isPrefixL xs ys

/-- Substring test (`a in s` on Python strings). -/
def isSubstring (pat : PyStr) : PyStr → Bool
  | [] => pat.isEmpty
  | c :: cs => isPrefixL pat (c :: cs) || isSubstring pat cs

/-- Python membership `k in cont` for the containers the source meets:
dict (key lookup, unhashable keys raise `TypeError`), list (elementwise `==`),
string (substring test, non-string left operand raises `TypeError`).
`in` on any other value raises `TypeError`. -/
def containsVal (k cont : Value) : Except PyErr Bool :=
  match cont with
  | Value.vdict d =>
      if isUnhashable k then Except.error PyErr.typeError
      else Except.ok (lookupD k d).isSome
  | Value.vlist xs => Except.ok (xs.any (fun x => pyEq k x))
  | Value.vstr s =>
      match k with
      | Value.vstr ks => Except.ok (isSubstring ks s)
      | _ => Except.error PyErr.typeError
  | _ => Except.error PyErr.typeError

/-- Python list indexing `xs[n]` with negative-index adjustment;
out of range raises `IndexError`. -/
def pyListGet (xs : List Value) (n : Int) : Except PyErr Value :=
  let i : Int := if n < 0 then n + xs.length else n
  if i < 0 then Except.error PyErr.indexError
  else
    match xs[i.toNat]? with
    | some v => Except.ok v
    | none => Except.error PyErr.indexError

/-- Python string indexing `s[n]`: yields a one-character string. -/
def pyStrGet (s : PyStr) (n : Int) : Except PyErr Value :=
  let i : Int := if n < 0 then n + s.length else n
  if i < 0 then Except.error PyErr.indexError
  else
    match s[i.toNat]? with
    | some c => Except.ok (Value.vstr [c])
    | none => Except.error PyErr.indexError

/-- Python subscripting `cont[k]`: dict key lookup (missing key raises
`KeyError`, unhashable key `TypeError`), list/string integer or boolean
indexing, `TypeError` everywhere else. -/
def subscriptV (cont k : Value) : Except PyErr Value :=
  match cont with
  | Value.vdict d =>
      if isUnhashable k then Except.error PyErr.typeError
      else
        match lookupD k d with
        | some v => Except.ok v
        | none => Except.error PyErr.keyError
  | Value.vlist xs =>
      match k with
      | Value.vint n => pyListGet xs n
      | Value.vbool b => pyListGet xs (if b then 1 else 0)
      | _ => Except.error PyErr.typeError
  | Value.vstr s =>
      match k with
      | Value.vint n => pyStrGet s n
      | Value.vbool b => pyStrGet s (if b then 1 else 0)
      | _ => Except.error PyErr.typeError
  | _ => Except.error PyErr.typeError

/-- Python list item assignment `xs[k] = v` (used by `merge_spec` when the
original is a list): integer or boolean index, in range, else `IndexError`;
any other index raises `TypeError`. -/
def pyListAssignI (xs : List Value) (n : Int) (v : Value) :
    Except PyErr (List Value) :=
  let i : Int := if n < 0 then n + xs.length else n
  if i < 0 then Except.error PyErr.indexError
  else if i.toNat < xs.length then Except.ok (xs.set i.toNat v)
  else Except.error PyErr.indexError

/-- Dispatch of `xs[k] = v` on the index value. -/
def pyListAssign (xs : List Value) (k v : Value) : Except PyErr (List Value) :=
  match k with
  | Value.vint n => pyListAssignI xs n v
  | Value.vbool b => pyListAssignI xs (if b then 1 else 0) v
  | _ => Except.error PyErr.typeError

/-- Join a list of segments with a separator (used for `str.replace` and for
the comma separators of `repr` on containers). -/
def joinWith (sep : PyStr) : List PyStr → PyStr
  | [] => []
  | [x] => x
  | x :: xs => x ++ sep ++ joinWith sep xs

mutual
/-- Python `str(v)`, as applied by `_eval_param` to the looked-up leaf value
of a `#PARAM` macro. -/
def pyStrOf : Value → PyStr
  | Value.vstr s => s
  | Value.vint n => (toString n).toList
  | Value.vbool b => if b then pystr "True" else pystr "False"
  | Value.vnone => pystr "None"
  | Value.vlist xs => [Char.ofNat 91] ++ joinWith (pystr ", ") (pyReprList xs) ++ [Char.ofNat 93]
  | Value.vdict d => [obr] ++ joinWith (pystr ", ") (pyReprPairs d) ++ [cbr]

/-- Python `repr(v)` for the elements of containers.  String quoting follows
CPython's rule of preferring single quotes; escape sequences beyond the quote
itself are not modelled (no value in the repository needs them). -/
def pyReprOf : Value → PyStr
  | Value.vstr s =>
      if s.contains sqc && !(s.contains dqc) then [dqc] ++ s ++ [dqc]
      else [sqc] ++ s ++ [sqc]
  | Value.vint n => (toString n).toList
  | Value.vbool b => if b then pystr "True" else pystr "False"
  | Value.vnone => pystr "None"
  | Value.vlist xs => [Char.ofNat 91] ++ joinWith (pystr ", ") (pyReprList xs) ++ [Char.ofNat 93]
  | Value.vdict d => [obr] ++ joinWith (pystr ", ") (pyReprPairs d) ++ [cbr]

/-- `repr` of each list element. -/
def pyReprList : List Value → List PyStr
  | [] => []
  | x :: xs => pyReprOf x :: pyReprList xs

/-- `repr key: repr value` for each dict entry. -/
def pyReprPairs : List (Value × Value) → List PyStr
  | [] => []
  | (k, v) :: d => (pyReprOf k ++ pystr ": " ++ pyReprOf v) :: pyReprPairs d
end

/-- Split `s` on non-overlapping left-to-right occurrences of `pat`
(the segment decomposition behind Python's `str.replace`).  An empty
pattern never occurs in the source (`#PARAM(...)` needles are nonempty);
for totality it yields the unsplit string. -/
def splitOnPat (pat : PyStr) (s : PyStr) : List PyStr :=
  match s with
  | [] => [[]]
  | c :: cs =>
    if pat ≠ [] ∧ isPrefixL pat (c :: cs) = true then
      [] :: splitOnPat pat (List.drop (pat.length - 1) cs)
    else
      match splitOnPat pat cs with
      | [] => [[c]]
      | seg :: rest => (c :: seg) :: rest
termination_by s.length
decreasing_by
  · simp only [List.length_drop, List.length_cons]
    omega
  · simp only [List.length_cons]
    omega

/-- Python `s.replace(pat, rep)`: replace every non-overlapping occurrence,
scanning left to right. -/
def replaceAll (s pat rep : PyStr) : PyStr :=
  joinWith rep (splitOnPat pat s)

/-- The `\w` regex class (ASCII part): letters, digits, underscore. -/
def isWordChar (c : Char) : Bool := c.isAlphanum || c == '_'

/-- Characters of the base-name group `[\w\-]+` of the `#PARAM` regex. -/
def isBaseChar (c : Char) : Bool := isWordChar c || c == '-'

/-- Characters of the accessor group `[\w\[\]\-\'\"]+` of the `#PARAM` regex. -/
def isAccChar (c : Char) : Bool :=
  isWordChar c || c == '[' || c == ']' || c == '-' || c == sqc || c == dqc

/-- `span`: longest prefix of characters satisfying `p`, and the rest. -/
def spanP (p : Char → Bool) : PyStr → PyStr × PyStr
  | [] => ([], [])
  | c :: cs =>
      if p c then
        let r := spanP p cs
        (c :: r.1, r.2)
      else ([], c :: cs)

/-- One `re.findall` result of the macro regex
`#PARAM\((([\w\-]+)(\[[\w\[\]\-\'\"]+\])*)\)`: the full path group, the
base-name group, and the (last) accessor group. -/
abbrev ParamRef := PyStr × PyStr × PyStr

/-- Shape test for the accessor region.  The regex `(\[[\w\[\]\-\'\"]+\])*\)`
matches greedily with backtracking; because `[` and `]` are themselves in the
repeated character class and `)` is not, a match at this position exists
exactly when the maximal accessor-character run is empty or starts with `[`,
ends with `]` and has length at least 3 — and then the greedy engine takes
the whole run as a single repetition, so the captured last-repetition group
equals the whole run. -/
def accOk (acc : PyStr) : Bool :=
  acc.isEmpty || (acc.head? == some '[' && acc.getLast? == some ']' && decide (3 ≤ acc.length))

/-- Try to match the macro regex at the head of `s`.  On success, return the
captured groups and the remainder of the string after the closing `)`. -/
def matchPARAMAt (s : PyStr) : Option (ParamRef × PyStr) :=
  match s with
  | '#' :: 'P' :: 'A' :: 'R' :: 'A' :: 'M' :: '(' :: rest =>
      match spanP isBaseChar rest with
      | (base, r1) =>
          if base.isEmpty then none
          else
            match spanP isAccChar r1 with
            | (acc, r2) =>
                if accOk acc then
                  match r2 with
                  | ')' :: r3 => some ((base ++ acc, base, acc), r3)
                  | _ => none
                else none
  | _ => none

/-- Fuel-indexed scanner behind `findParamRefs`; the fuel (initially the
string length) only serves termination, since every step consumes at least
one character. -/
def findAux : Nat → PyStr → List ParamRef
  | _, [] => []
  | 0, _ :: _ => []
  | f + 1, c :: cs =>
      match matchPARAMAt (c :: cs) with
      | some (m, rest) => m :: findAux f rest
      | none => findAux f cs

/-- `re.findall(_PARSE-style macro pattern, s)`: all matches of the `#PARAM`
regex, scanning left to right, resuming after each match. -/
def findParamRefs (s : PyStr) : List ParamRef := findAux s.length s

/-- A parsed subscript of the `eval`-ed accessor expression
`self.getValue('<base>')[...][...]`: an integer index, a quoted string key,
or a bare identifier (which `eval` resolves as a variable name and fails
with `NameError` when the subscript is evaluated). -/
inductive PySub where
  | idx : Int → PySub
  | key : PyStr → PySub
  | nameRef : PySub

/-- Accumulator form of `digitsToNat`. -/
def digitsToNatAux (acc : Nat) : PyStr → Nat
  | [] => acc
  | c :: cs => digitsToNatAux (acc * 10 + (c.toNat - 48)) cs

/-- Decimal digits to a natural number. -/
def digitsToNat : PyStr → Nat
  | [] => 0
  | c :: cs => digitsToNatAux (c.toNat - 48) cs

/-- Parse one `[item]` chunk of the accessor text, as Python's `eval` parses
the subscript expression: an (optionally negated) integer literal, a single- or
double-quoted string literal, or an identifier.  Anything else in the accessor
character class (for instance arithmetic such as `[1-2]`, unterminated quotes)
is modelled as unparseable and surfaces as the uncaught `evalError`. -/
def parseChunk (s : PyStr) : Option (PySub × PyStr) :=
  match s with
  | '[' :: rest =>
      match rest with
      | [] => none
      | c :: more =>
        if c == sqc || c == dqc then
          let b := spanP (fun x => x != c) more
          match b.2 with
          | c2 :: ']' :: r => if c2 == c then some (PySub.key b.1, r) else none
          | _ => none
        else if c == '-' then
          let d := spanP Char.isDigit more
          if d.1.isEmpty then none
          else
            match d.2 with
            | ']' :: r => some (PySub.idx (-(digitsToNat d.1 : Int)), r)
            | _ => none
        else if c.isDigit then
          let d := spanP Char.isDigit (c :: more)
          match d.2 with
          | ']' :: r => some (PySub.idx (digitsToNat d.1 : Int), r)
          | _ => none
        else if c.isAlpha || c == '_' then
          let d := spanP isWordChar (c :: more)
          match d.2 with
          | ']' :: r => some (PySub.nameRef, r)
          | _ => none
        else none
  | _ => none

/-- Fuel-indexed accessor parser; the fuel (initially the text length) only
serves termination, as every chunk consumes at least one character. -/
def parseAccAux : Nat → PyStr → Option (List PySub)
  | _, [] => some []
  | 0, _ :: _ => none
  | f + 1, s =>
      match parseChunk s with
      | some (sub, rest) => (parseAccAux f rest).map (fun subs => sub :: subs)
      | none => none

/-- Parse the whole accessor text (group 3 of the macro regex) into the list
of subscripts that `eval` would apply left to right. -/
def parseAccessors (s : PyStr) : Option (List PySub) := parseAccAux s.length s

/-- Apply one parsed subscript, with Python's error classes: an identifier
subscript raises `NameError` when its expression is evaluated. -/
def applySub (v : Value) : PySub → Except PyErr Value
  | PySub.idx n => subscriptV v (Value.vint n)
  | PySub.key s => subscriptV v (Value.vstr s)
  | PySub.nameRef => Except.error PyErr.nameError

/-- Apply the parsed subscripts left to right, as `eval` does. -/
def applySubs : Value → List PySub → Except PyErr Value
  | v, [] => Except.ok v
  | v, sub :: rest =>
      match applySub v sub with
      | Except.ok w => applySubs w rest
      | Except.error e => Except.error e

/-- The replacement needle `'#PARAM({})'.format(macro[0])`. -/
def needleOf (path : PyStr) : PyStr := pystr "#PARAM(" ++ path ++ [')']

/-- `str(eval("self.getValue('<base>')<accessors>"))` for one macro, with the
store lookup abstracted as `get`.  A syntactically invalid accessor fails
before the lookup runs (Python raises `SyntaxError` at parse time); a valid
expression first calls `getValue`, then applies the subscripts. -/
def evalOneRef (get : PyStr → Except PyErr Value) (base acc : PyStr) :
    Except PyErr PyStr :=
  match parseAccessors acc with
  | none => Except.error PyErr.evalError
  | some subs =>
      match get base with
      | Except.error e => Except.error e
      | Except.ok v =>
          match applySubs v subs with
          | Except.error e => Except.error e
          | Except.ok leaf => Except.ok (pyStrOf leaf)

/-- The exception classes silenced by the `try`/`except` around the macro
evaluation: `except IndexError: pass` and `except AttributeError: pass`.
Any other exception (notably `KeyError`) propagates to the caller. -/
def caughtErr : PyErr → Bool
  | PyErr.indexError => true
  | PyErr.attributeError => true
  | _ => false

/-- The `for macro in macros:` loop of `_eval_param`: evaluate each found
macro against the store; on success replace every occurrence of its
`#PARAM(path)` text in the working string; on a silenced failure keep the
occurrence unexpanded and continue; on any other failure propagate. -/
def evalRefs (get : PyStr → Except PyErr Value) :
    List ParamRef → PyStr → Except PyErr PyStr
  | [], param => Except.ok param
  | (path, base, acc) :: rest, param =>
      match evalOneRef get base acc with
      | Except.ok t => evalRefs get rest (replaceAll param (needleOf path) t)
      | Except.error e =>
          if caughtErr e then evalRefs get rest param
          else Except.error e

mutual
/-- Body of `Settings._eval_param`, with the recursive store access
abstracted as `get`: strings are run through the macro loop, lists resolve
elementwise into a fresh list, dicts resolve their values into a fresh dict
with the same keys, and every other value is returned unchanged. -/
def evalValue (get : PyStr → Except PyErr Value) : Value → Except PyErr Value
  | Value.vstr s =>
      match evalRefs get (findParamRefs s) s with
      | Except.ok t => Except.ok (Value.vstr t)
      | Except.error e => Except.error e
  | Value.vlist xs =>
      match evalVList get xs with
      | Except.ok ys => Except.ok (Value.vlist ys)
      | Except.error e => Except.error e
  | Value.vdict d =>
      match evalVDict get d with
      | Except.ok d2 => Except.ok (Value.vdict d2)
      | Except.error e => Except.error e
  | v => Except.ok v

/-- The `for item in param: tmp_list.append(...)` loop of `_eval_param`. -/
def evalVList (get : PyStr → Except PyErr Value) :
    List Value → Except PyErr (List Value)
  | [] => Except.ok []
  | x :: xs =>
      match evalValue get x with
      | Except.error e => Except.error e
      | Except.ok y =>
          match evalVList get xs with
          | Except.error e => Except.error e
          | Except.ok ys => Except.ok (y :: ys)

/-- The `for (key, value) in param.items()` loop of `_eval_param`. -/
def evalVDict (get : PyStr → Except PyErr Value) :
    List (Value × Value) → Except PyErr (List (Value × Value))
  | [] => Except.ok []
  | (k, v) :: d =>
      match evalValue get v with
      | Except.error e => Except.error e
      | Except.ok w =>
          match evalVDict get d with
          | Except.error e => Except.error e
          | Except.ok d2 => Except.ok ((k, w) :: d2)
end

/-- The settings store: `Settings.__dict__`, an insertion-ordered mapping
from attribute names to values. -/
abbrev Store := List (PyStr × Value)

/-- Attribute lookup in `__dict__` (`attr in self.__dict__` / `getattr`). -/
def lookupStore : Store → PyStr → Option Value
  | [], _ => none
  | (k, w) :: rest, n => if k = n then some w else lookupStore rest n

/-- `object.__setattr__`: replace the value in place if the name exists,
append otherwise. -/
def setKey : Store → PyStr → Value → Store
  | [], n, v => [(n, v)]
  | (k, w) :: rest, n, v =>
      if k = n then (k, v) :: rest else (k, w) :: setKey rest n v

/-- The name whose value `getValue` returns without macro expansion. -/
def TPname : PyStr := pystr "TEST_PARAMS"

/-- The body of `Settings.getValue`: raise `AttributeError` (the spec's
`UnknownSetting`) if the name — exactly as given — is not in `__dict__`;
return the raw stored value for `TEST_PARAMS`; otherwise run the stored
value through `_eval_param`, abstracted here as the continuation `k`. -/
def getBase (store : Store) (k : Value → Except PyErr Value) (base : PyStr) :
    Except PyErr Value :=
  match lookupStore store base with
  | none => Except.error PyErr.attributeError
  | some bv => if base = TPname then Except.ok bv else k bv

/-- `Settings._eval_param`, fuel-indexed.  `evalParam fuel store v` resolves
value `v` against `store`; a `#PARAM` macro's base name is looked up exactly
as `getValue` does (`getBase`), and any stored value other than
`TEST_PARAMS` is recursively resolved with one unit of fuel less (fuel
exhaustion modelling `RecursionError` on unbounded reference chains). -/
def evalParam : Nat → Store → Value → Except PyErr Value
  | 0, store, v =>
      evalValue
        (getBase store (fun _ => Except.error PyErr.recursionError)) v
  | f + 1, store, v =>
      evalValue (getBase store (evalParam f store)) v

/-- `Settings.getValue`: the `getBase` lookup with `_eval_param` as the
resolution continuation. -/
def getValue (fuel : Nat) (store : Store) (attr : PyStr) :
    Except PyErr Value :=
  getBase store (evalParam fuel store) attr

/-- Python `str.isupper` (ASCII): at least one cased character and no
lowercase cased character. -/
def pyIsUpper (s : PyStr) : Bool :=
  s.any (fun c => c.isUpper) && s.all (fun c => !c.isLower)

/-- Python `str.upper` (ASCII). -/
def pyUpper (s : PyStr) : PyStr := s.map Char.toUpper

/-- `Settings.__setattr__` (the `set` primitive): silently drop any name
failing `isupper`, otherwise store the value, fully replacing a prior one. -/
def setAttr (store : Store) (name : PyStr) (v : Value) : Store :=
  if pyIsUpper name then setKey store name v else store

/-- `Settings.setValue`: store unconditionally (no shape check, no
normalization) unless the name or the value is `None`, in which case do
nothing.  A `None` name is modelled by `Option.none`. -/
def setValue (store : Store) (name : Option PyStr) (v : Value) : Store :=
  match name with
  | none => store
  | some n => if isNone v then store else setKey store n v

/-- The restoration loop of `restore_from_dict` (after `__dict__.clear()`):
`setValue` for each snapshot entry in order.  The deep copy the source takes
is the identity in this value-level model. -/
def restoreGo : Store → List (PyStr × Value) → Store
  | store, [] => store
  | store, (k, v) :: rest => restoreGo (setValue store (some k) v) rest

/-- `Settings.restore_from_dict`: drop every current setting, then repopulate
from the snapshot via `setValue`. -/
def restore_from_dict (_store : Store) (conf : List (PyStr × Value)) : Store :=
  restoreGo [] conf

/-- The iteration contents of `for key in new:` — dict keys, string
characters (as one-character strings), list items; iterating any other value
raises `TypeError`. -/
def iterContents : Value → Except PyErr (List Value)
  | Value.vdict d => Except.ok (d.map Prod.fst)
  | Value.vstr s => Except.ok (s.map (fun c => Value.vstr [c]))
  | Value.vlist xs => Except.ok xs
  | _ => Except.error PyErr.typeError

/-- The update value for one matched key of `merge_spec`:
`merge_spec(orig[key], new[key])` when `orig[key]` is exactly a dict,
plain `new[key]` otherwise.  The recursive call is abstracted as `rec`. -/
def mergeEntryVal (rec : Value → Value → Except PyErr Value) (new k0 vo : Value) :
    Except PyErr Value :=
  match vo with
  | Value.vdict od =>
      match subscriptV new k0 with
      | Except.error e => Except.error e
      | Except.ok nv => rec (Value.vdict od) nv
  | _ => subscriptV new k0

/-- First loop of `merge_spec` when `orig` is a dict: for each key of `orig`
in order, skip it if absent from `new`; otherwise read `orig[key]`, and if it
is exactly a dict, set `orig[key] = merge_spec(orig[key], new[key])`, else
`orig[key] = new[key]`.  The recursive call is abstracted as `rec`. -/
def mergeP1 (rec : Value → Value → Except PyErr Value) (new : Value) :
    List (Value × Value) → Except PyErr (List (Value × Value))
  | [] => Except.ok []
  | (k, vo) :: rest =>
      match containsVal k new with
      | Except.error e => Except.error e
      | Except.ok false =>
          match mergeP1 rec new rest with
          | Except.error e => Except.error e
          | Except.ok rest2 => Except.ok ((k, vo) :: rest2)
      | Except.ok true =>
          match mergeEntryVal rec new k vo with
          | Except.error e => Except.error e
          | Except.ok v2 =>
              match mergeP1 rec new rest with
              | Except.error e => Except.error e
              | Except.ok rest2 => Except.ok ((k, v2) :: rest2)

/-- Second loop of `merge_spec` when `orig` is a dict: for each iteration
item of `new` in order, if it is not a key of the (already updated) `orig`,
append `orig[key] = new[key]`.  Unhashable items raise `TypeError` at the
membership test, exactly as in Python. -/
def mergeP2 : List (Value × Value) → List Value → Value →
    Except PyErr (List (Value × Value))
  | od, [], _ => Except.ok od
  | od, k :: ks, new =>
      match containsVal k (Value.vdict od) with
      | Except.error e => Except.error e
      | Except.ok true => mergeP2 od ks new
      | Except.ok false =>
          match subscriptV new k with
          | Except.error e => Except.error e
          | Except.ok v => mergeP2 (od ++ [(k, v)]) ks new

/-- First loop of `merge_spec` when `orig` is a string: Python iterates the
characters; a character that is present in `new` is then used to subscript
the string (`orig[key]`), which raises `TypeError` (string indices must be
integers). -/
def mergeStr1 (new : Value) : PyStr → Except PyErr Unit
  | [] => Except.ok ()
  | c :: rest =>
      match containsVal (Value.vstr [c]) new with
      | Except.error e => Except.error e
      | Except.ok true => Except.error PyErr.typeError
      | Except.ok false => mergeStr1 new rest

/-- Second loop of `merge_spec` when `orig` is a string: any iteration item
of `new` that is not `in` the string leads to the item assignment
`orig[key] = new[key]`, which raises `TypeError` (strings are immutable). -/
def mergeStr2 (s : PyStr) : List Value → Except PyErr Unit
  | [] => Except.ok ()
  | k :: ks =>
      match containsVal k (Value.vstr s) with
      | Except.error e => Except.error e
      | Except.ok true => mergeStr2 s ks
      | Except.ok false => Except.error PyErr.typeError

/-- `merge_spec` with a string `orig`: both loops can complete without
effect only when every relevant membership test passes. -/
def mergeStr (s : PyStr) (new : Value) : Except PyErr Value :=
  match mergeStr1 new s with
  | Except.error e => Except.error e
  | Except.ok _ =>
      match iterContents new with
      | Except.error e => Except.error e
      | Except.ok ks =>
          match mergeStr2 s ks with
          | Except.error e => Except.error e
          | Except.ok _ => Except.ok (Value.vstr s)

/-- First loop of `merge_spec` when `orig` is a list.  Python's `for key in
orig` iterates by index over the live, mutated list; each item found in `new`
is used as an *index* into `orig` (`orig[key]`), merged or replaced, and
assigned back.  The counter counts the remaining indices (item assignment
never changes the length). -/
def mergeL1 (rec : Value → Value → Except PyErr Value) (new : Value) :
    Nat → Nat → List Value → Except PyErr (List Value)
  | 0, _, cur => Except.ok cur
  | n + 1, i, cur =>
      match cur[i]? with
      | none => Except.ok cur
      | some key =>
          match containsVal key new with
          | Except.error e => Except.error e
          | Except.ok false => mergeL1 rec new n (i + 1) cur
          | Except.ok true =>
              match subscriptV (Value.vlist cur) key with
              | Except.error e => Except.error e
              | Except.ok w =>
                  match mergeEntryVal rec new key w with
                  | Except.error e => Except.error e
                  | Except.ok v2 =>
                      match pyListAssign cur key v2 with
                      | Except.error e => Except.error e
                      | Except.ok cur2 => mergeL1 rec new n (i + 1) cur2

/-- Second loop of `merge_spec` when `orig` is a list: iteration items of
`new` that are not elements of the list are used as indices for the item
assignment `orig[key] = new[key]`. -/
def mergeL2 : List Value → List Value → Value → Except PyErr (List Value)
  | cur, [], _ => Except.ok cur
  | cur, k :: ks, new =>
      match containsVal k (Value.vlist cur) with
      | Except.error e => Except.error e
      | Except.ok true => mergeL2 cur ks new
      | Except.ok false =>
          match subscriptV new k with
          | Except.error e => Except.error e
          | Except.ok v =>
              match pyListAssign cur k v with
              | Except.error e => Except.error e
              | Except.ok cur2 => mergeL2 cur2 ks new

/-- Fuel-indexed `merge_spec`.  Every recursive call of the source passes
`new[key]`, a strict subvalue of `new`, so a fuel of `sizeOf new + 1` (used
by the wrapper below) can never run out; fuel exhaustion is modelled as
`recursionError` for totality.  An `orig` that is an int, bool or `None`
raises `TypeError` at `for key in orig:`. -/
def mergeF : Nat → Value → Value → Except PyErr Value
  | 0, _, _ => Except.error PyErr.recursionError
  | f + 1, Value.vdict od, new =>
      match mergeP1 (mergeF f) new od with
      | Except.error e => Except.error e
      | Except.ok od1 =>
          match iterContents new with
          | Except.error e => Except.error e
          | Except.ok ks =>
              match mergeP2 od1 ks new with
              | Except.error e => Except.error e
              | Except.ok od2 => Except.ok (Value.vdict od2)
  | _ + 1, Value.vstr s, new => mergeStr s new
  | f + 1, Value.vlist xs, new =>
      match mergeL1 (mergeF f) new xs.length 0 xs with
      | Except.error e => Except.error e
      | Except.ok cur1 =>
          match iterContents new with
          | Except.error e => Except.error e
          | Except.ok ks =>
              match mergeL2 cur1 ks new with
              | Except.error e => Except.error e
              | Except.ok cur2 => Except.ok (Value.vlist cur2)
  | _ + 1, _, _ => Except.error PyErr.typeError

mutual
/-- Executable structural size of a value, used as the fuel bound of
`merge_spec`. -/
def vsize : Value → Nat
  | Value.vstr _ => 1
  | Value.vint _ => 1
  | Value.vbool _ => 1
  | Value.vnone => 1
  | Value.vlist xs => 1 + vsizeList xs
  | Value.vdict d => 1 + vsizePairs d

/-- Size of a list of values. -/
def vsizeList : List Value → Nat
  | [] => 0
  | x :: xs => vsize x + vsizeList xs

/-- Size of a dict entry list. -/
def vsizePairs : List (Value × Value) → Nat
  | [] => 0
  | (k, v) :: d => vsize k + vsize v + vsizePairs d
end

/-- The module-level `merge_spec(orig, new)`: merge `new` into `orig` and
return the (in this value-level model, freshly built) result.  Every
recursive call strictly shrinks `new`, so `vsize new + 1` units of fuel
always suffice. -/
def merge_spec (orig new : Value) : Except PyErr Value :=
  mergeF (vsize new + 1) orig new

/-- One entry of the `load_from_dict` loop: skip `None` values; a dict value
is merged via `merge_spec(getattr(self, key.upper()), value)` — `getattr`
raising `AttributeError` when the uppercased key is not a stored setting —
and the merge result stored through `__setattr__`; any other value is stored
through `__setattr__` directly. -/
def loadStep (store : Store) (kv : PyStr × Value) : Except PyErr Store :=
  if isNone kv.2 then Except.ok store
  else if isDict kv.2 then
    match lookupStore store (pyUpper kv.1) with
    | none => Except.error PyErr.attributeError
    | some cur =>
        match merge_spec cur kv.2 with
        | Except.error e => Except.error e
        | Except.ok m => Except.ok (setAttr store (pyUpper kv.1) m)
  else Except.ok (setAttr store (pyUpper kv.1) kv.2)

/-- `Settings.load_from_dict`: fold the entries of `conf` in order through
`loadStep`; an exception aborts the load. -/
def load_from_dict : Store → List (PyStr × Value) → Except PyErr Store
  | store, [] => Except.ok store
  | store, kv :: rest =>
      match loadStep store kv with
      | Except.error e => Except.error e
      | Except.ok store2 => load_from_dict store2 rest

mutual
/-- A value containing no occurrence of the `#PARAM` placeholder pattern in
any of its strings (the regex finds no match anywhere). -/
def noRefs : Value → Bool
  | Value.vstr s => (findParamRefs s).isEmpty
  | Value.vlist xs => noRefsList xs
  | Value.vdict d => noRefsDict d
  | _ => true

/-- `noRefs` on every list element. -/
def noRefsList : List Value → Bool
  | [] => true
  | x :: xs => noRefs x && noRefsList xs

/-- `noRefs` on every dict value. -/
def noRefsDict : List (Value × Value) → Bool
  | [] => true
  | (_, v) :: d => noRefs v && noRefsDict d
end

/-! ### Store lemmas -/

theorem lookup_setKey_self (st : Store) (n : PyStr) (v : Value) :
    lookupStore (setKey st n v) n = some v := by
  induction st with
  | nil => simp [setKey, lookupStore]
  | cons p rest ih =>
      by_cases h : p.1 = n
      · simp [setKey, h, lookupStore]
      · simp [setKey, h, lookupStore, ih]

theorem lookup_setKey_ne (st : Store) (n m : PyStr) (v : Value) (h : n ≠ m) :
    lookupStore (setKey st n v) m = lookupStore st m := by
  induction st with
  | nil => simp [setKey, lookupStore, h]
  | cons p rest ih =>
      by_cases hk : p.1 = n
      · simp [setKey, hk, lookupStore, h]
      · simp [setKey, hk, lookupStore, ih]

theorem restoreGo_skip (st : Store) (conf : List (PyStr × Value)) (k : PyStr)
    (h : k ∉ conf.map Prod.fst) :
    lookupStore (restoreGo st conf) k = lookupStore st k := by
  induction conf generalizing st with
  | nil => rfl
  | cons p rest ih =>
      simp only [List.map_cons, List.mem_cons] at h
      push_neg at h
      rw [restoreGo, ih _ h.2]
      cases hv : isNone p.2 with
      | true => simp [setValue, hv]
      | false => simp [setValue, hv, lookup_setKey_ne st p.1 k _ (fun he => h.1 he.symm)]

theorem restoreGo_mem (st : Store) (conf : List (PyStr × Value)) (k : PyStr)
    (w : Value) (hmem : (k, w) ∈ conf) (hw : isNone w = false)
    (hnd : (conf.map Prod.fst).Nodup) :
    lookupStore (restoreGo st conf) k = some w := by
  induction conf generalizing st with
  | nil => cases hmem
  | cons p rest ih =>
      simp only [List.map_cons, List.nodup_cons] at hnd
      rcases List.mem_cons.mp hmem with hhead | htail
      · subst hhead
        rw [restoreGo, restoreGo_skip _ _ _ hnd.1]
        simp [setValue, hw, lookup_setKey_self]
      · exact ih (setValue st (some p.1) p.2) htail hnd.2

/-! ### Claim C1 -/

/-- C1: the claim says that every failing `#PARAM` resolution — unknown
setting name, out-of-range index, or unknown key — is left unexpanded with no
exception.  The code only silences `IndexError` and `AttributeError`: an
unknown key raises `KeyError` through `getValue` to the caller (first
conjunct), while the unknown-name and out-of-range-index failures are indeed
left unexpanded with resolution continuing (second conjunct). -/
theorem getValue_keyerror_escapes :
    getValue 1
      [(pystr "FOO", Value.vdict [(Value.vstr (pystr "a"), Value.vint 1)]),
       (pystr "X", Value.vstr
         (pystr "#PARAM(FOO[" ++ [sqc] ++ pystr "bar" ++ [sqc] ++ pystr "]) end")),
       (pystr "Y", Value.vstr (pystr "#PARAM(MISSING) #PARAM(LST[5]) ok")),
       (pystr "LST", Value.vlist [Value.vint 1])]
      (pystr "X") = Except.error PyErr.keyError ∧
    getValue 1
      [(pystr "FOO", Value.vdict [(Value.vstr (pystr "a"), Value.vint 1)]),
       (pystr "X", Value.vstr
         (pystr "#PARAM(FOO[" ++ [sqc] ++ pystr "bar" ++ [sqc] ++ pystr "]) end")),
       (pystr "Y", Value.vstr (pystr "#PARAM(MISSING) #PARAM(LST[5]) ok")),
       (pystr "LST", Value.vlist [Value.vint 1])]
      (pystr "Y") = Except.ok (Value.vstr (pystr "#PARAM(MISSING) #PARAM(LST[5]) ok")) :=
  ⟨rfl, rfl⟩

/-! ### Claim C4 -/

/-- C4 counterexample: the claim says a mapping value under a key not yet in
the store "fully creates the setting" without invoking the merger; the code
instead calls `merge_spec(getattr(self, key.upper()), value)` for every
mapping value, and `getattr` on the absent key raises `AttributeError`. -/
theorem load_from_dict_absent_dict_raises :
    load_from_dict [] [(pystr "a", Value.vdict [])] =
      Except.error PyErr.attributeError := rfl

/-- C4 amended: in a dict-sourced load, a non-null *non*-mapping value is
stored (replace or create) without invoking the merger; a non-null mapping
value is always handed to the Structural Merger together with
`getattr(self, key.upper())` — so with the stored value when the key exists,
and with an `AttributeError` from `getattr` when it does not. -/
theorem loadStep_cases (store : Store) (k : PyStr) (v : Value)
    (d : List (Value × Value)) (c : Value) :
    (isNone v = false → isDict v = false →
      loadStep store (k, v) = Except.ok (setAttr store (pyUpper k) v)) ∧
    (lookupStore store (pyUpper k) = some c →
      loadStep store (k, Value.vdict d) =
        match merge_spec c (Value.vdict d) with
        | Except.ok m => Except.ok (setAttr store (pyUpper k) m)
        | Except.error e => Except.error e) ∧
    (lookupStore store (pyUpper k) = none →
      loadStep store (k, Value.vdict d) = Except.error PyErr.attributeError) := by
  refine ⟨fun h1 h2 => ?_, fun h => ?_, fun h => ?_⟩
  · simp [loadStep, h1, h2]
  · simp only [loadStep, isNone, isDict, if_false, if_true, h]
    cases merge_spec c (Value.vdict d) <;> rfl
  · simp [loadStep, isNone, isDict, h]

/-- Witness for `loadStep_cases` at concrete inputs: a scalar value is stored
directly, and a mapping value under an existing mapping key goes through the
merger. -/
theorem loadStep_cases_witness :
    loadStep [] (pystr "a", Value.vint 3) =
      Except.ok [(pystr "A", Value.vint 3)] ∧
    loadStep [(pystr "A", Value.vdict [(Value.vstr (pystr "x"), Value.vint 1)])]
        (pystr "a", Value.vdict [(Value.vstr (pystr "y"), Value.vint 2)]) =
      Except.ok [(pystr "A", Value.vdict
        [(Value.vstr (pystr "x"), Value.vint 1),
         (Value.vstr (pystr "y"), Value.vint 2)])] := by
  constructor
  · exact (loadStep_cases [] (pystr "a") (Value.vint 3) [] Value.vnone).1 rfl rfl
  · exact ((loadStep_cases
      [(pystr "A", Value.vdict [(Value.vstr (pystr "x"), Value.vint 1)])]
      (pystr "a") Value.vnone [(Value.vstr (pystr "y"), Value.vint 2)]
      (Value.vdict [(Value.vstr (pystr "x"), Value.vint 1)])).2.1 rfl).trans rfl

/-! ### Claim C5 -/

/-- C5: the nested-merge example from the spec (and the source docstring):
scalars named in `incoming` are overwritten, nested mappings merge
recursively, and the untouched nested leaf `bar.bar` survives. -/
theorem merge_spec_docstring_example :
    merge_spec
      (Value.vdict [(Value.vstr (pystr "foo"), Value.vint 1),
        (Value.vstr (pystr "bar"), Value.vdict
          [(Value.vstr (pystr "foo"), Value.vint 2),
           (Value.vstr (pystr "bar"), Value.vint 3)])])
      (Value.vdict [(Value.vstr (pystr "foo"), Value.vint 6),
        (Value.vstr (pystr "bar"), Value.vdict
          [(Value.vstr (pystr "foo"), Value.vint 7)])]) =
    Except.ok
      (Value.vdict [(Value.vstr (pystr "foo"), Value.vint 6),
        (Value.vstr (pystr "bar"), Value.vdict
          [(Value.vstr (pystr "foo"), Value.vint 7),
           (Value.vstr (pystr "bar"), Value.vint 3)])]) := rfl

/-! ### Claim C8 -/

/-- C8 counterexample: `A-B` is not shaped like a settings identifier (it
contains `-`), yet `str.isupper` accepts it — the store changes. -/
theorem setAttr_nonidentifier_stored :
    setAttr [] (pystr "A-B") (Value.vint 1) = [(pystr "A-B", Value.vint 1)] ∧
    [(pystr "A-B", Value.vint 1)] ≠ ([] : Store) := ⟨rfl, by simp⟩

/-- C8 amended: `set` drops an assignment exactly when the name fails
Python's `isupper` test (no cased character, or some cased character
lowercase); in particular every name containing a lowercase letter is
dropped with the store unchanged, but names with invalid identifier
characters whose cased characters are all uppercase are stored. -/
theorem setAttr_isupper_filter (store : Store) (name : PyStr) (v : Value) :
    (pyIsUpper name = false → setAttr store name v = store) ∧
    (pyIsUpper name = true → setAttr store name v = setKey store name v) := by
  constructor <;> intro h <;> simp [setAttr, h]

/-- Witness for `setAttr_isupper_filter`: a lowercase name is dropped. -/
theorem setAttr_isupper_filter_witness :
    setAttr [] (pystr "ab") (Value.vint 1) = [] :=
  (setAttr_isupper_filter [] (pystr "ab") (Value.vint 1)).1 rfl

/-! ### Claim C9 -/

/-- C9: `TEST_PARAMS` is the unique name whose stored value `getValue`
returns raw — even a value full of resolvable placeholders comes back
verbatim — while every other stored name is routed through `_eval_param`. -/
theorem getValue_test_params_bypass (fuel : Nat) (store : Store)
    (name : PyStr) (v w : Value) :
    (lookupStore store TPname = some v →
      getValue fuel store TPname = Except.ok v) ∧
    (name ≠ TPname → lookupStore store name = some w →
      getValue fuel store name = evalParam fuel store w) := by
  constructor
  · intro h; simp [getValue, getBase, h]
  · intro hne h; simp [getValue, getBase, h, hne]

/-- Witness for `getValue_test_params_bypass`: a `TEST_PARAMS` value holding
a placeholder that would resolve (`FOO` is set) is returned unexpanded, and a
second name holding the same text is routed through the resolver. -/
theorem getValue_test_params_bypass_witness :
    getValue 1 [(TPname, Value.vstr (pystr "#PARAM(FOO)")),
        (pystr "FOO", Value.vint 5),
        (pystr "Z", Value.vstr (pystr "#PARAM(FOO)"))] TPname =
      Except.ok (Value.vstr (pystr "#PARAM(FOO)")) ∧
    getValue 1 [(TPname, Value.vstr (pystr "#PARAM(FOO)")),
        (pystr "FOO", Value.vint 5),
        (pystr "Z", Value.vstr (pystr "#PARAM(FOO)"))] (pystr "Z") =
      evalParam 1 [(TPname, Value.vstr (pystr "#PARAM(FOO)")),
        (pystr "FOO", Value.vint 5),
        (pystr "Z", Value.vstr (pystr "#PARAM(FOO)"))]
        (Value.vstr (pystr "#PARAM(FOO)")) := by
  constructor
  · exact (getValue_test_params_bypass 1 _ TPname _ Value.vnone).1 rfl
  · exact (getValue_test_params_bypass 1 _ (pystr "Z") Value.vnone _).2
      (by decide) rfl

/-! ### Claim C10 -/

/-- C10: `setValue` stores any non-null name/value pair exactly as given —
no shape check, no case normalization — and the setting is then found by
lookup under that exact name; a null name or value makes it a no-op; and
`restore_from_dict` repopulates the cleared store with the snapshot's keys
verbatim through `setValue`. -/
theorem setValue_verbatim (store : Store) (n : PyStr) (v : Value)
    (conf : List (PyStr × Value)) (k : PyStr) (w : Value) :
    (isNone v = false → lookupStore (setValue store (some n) v) n = some v) ∧
    (setValue store none v = store) ∧
    (setValue store (some n) Value.vnone = store) ∧
    ((k, w) ∈ conf → isNone w = false → (conf.map Prod.fst).Nodup →
      lookupStore (restore_from_dict store conf) k = some w) := by
  refine ⟨fun hv => ?_, rfl, by simp [setValue, isNone], fun hm hw hnd => ?_⟩
  · simp [setValue, hv, lookup_setKey_self]
  · exact restoreGo_mem [] conf k w hm hw hnd

/-- Witness for `setValue_verbatim`: a lowercase name — which `__setattr__`
would silently drop — is stored by `setValue` and survives a snapshot
restore. -/
theorem setValue_verbatim_witness :
    lookupStore (setValue [] (some (pystr "foo")) (Value.vint 1)) (pystr "foo")
      = some (Value.vint 1) ∧
    lookupStore (restore_from_dict [(pystr "OLD", Value.vint 9)]
        [(pystr "foo", Value.vint 1)]) (pystr "foo") = some (Value.vint 1) := by
  constructor
  · exact (setValue_verbatim [] (pystr "foo") (Value.vint 1) []
      (pystr "foo") Value.vnone).1 rfl
  · exact (setValue_verbatim [(pystr "OLD", Value.vint 9)] (pystr "foo")
      Value.vnone [(pystr "foo", Value.vint 1)] (pystr "foo")
      (Value.vint 1)).2.2.2 (by simp) rfl (by simp)

/-! ### Induction on values -/

theorem vsize_pos (v : Value) : 1 ≤ vsize v := by
  cases v <;> simp [vsize]

theorem mem_vsizeList {x : Value} {xs : List Value} (h : x ∈ xs) :
    vsize x ≤ vsizeList xs := by
  induction xs with
  | nil => cases h
  | cons y ys ih =>
      rcases List.mem_cons.mp h with rfl | h2
      · simp [vsizeList]
      · have := ih h2
        simp only [vsizeList]
        omega

theorem mem_vsizePairs {p : Value × Value} {d : List (Value × Value)}
    (h : p ∈ d) : vsize p.2 ≤ vsizePairs d := by
  induction d with
  | nil => cases h
  | cons q qs ih =>
      rcases List.mem_cons.mp h with rfl | h2
      · cases p with
        | mk k v => simp only [vsizePairs]; omega
      · have := ih h2
        cases q with
        | mk k v => simp only [vsizePairs]; omega

theorem value_ind (P : Value → Prop)
    (hstr : ∀ s, P (Value.vstr s))
    (hint : ∀ n, P (Value.vint n))
    (hbool : ∀ b, P (Value.vbool b))
    (hnone : P Value.vnone)
    (hlist : ∀ xs, (∀ x ∈ xs, P x) → P (Value.vlist xs))
    (hdict : ∀ d, (∀ p ∈ d, P p.2) → P (Value.vdict d)) :
    ∀ v, P v := by
  have key : ∀ n v, vsize v ≤ n → P v := by
    intro n
    induction n with
    | zero =>
        intro v hv
        have := vsize_pos v
        omega
    | succ n ih =>
        intro v hv
        cases v with
        | vstr s => exact hstr s
        | vint k => exact hint k
        | vbool b => exact hbool b
        | vnone => exact hnone
        | vlist xs =>
            refine hlist xs (fun x hx => ih x ?_)
            have h1 := mem_vsizeList hx
            have h2 : vsize (Value.vlist xs) = 1 + vsizeList xs := rfl
            omega
        | vdict d =>
            refine hdict d (fun p hp => ih p.2 ?_)
            have h1 := mem_vsizePairs hp
            have h2 : vsize (Value.vdict d) = 1 + vsizePairs d := rfl
            omega
  exact fun v => key (vsize v) v (le_refl _)

/-! ### The resolver never raises AttributeError to its caller -/

theorem evalRefs_ne_attr (get : PyStr → Except PyErr Value)
    (ms : List ParamRef) (param : PyStr) :
    evalRefs get ms param ≠ Except.error PyErr.attributeError := by
  induction ms generalizing param with
  | nil => simp [evalRefs]
  | cons m rest ih =>
      obtain ⟨path, base, acc⟩ := m
      simp only [evalRefs]
      split
      · exact ih _
      · split
        · exact ih _
        · rename_i e heq hc
          intro hcontra
          cases hcontra
          simp [caughtErr] at hc

theorem evalValue_ne_attr (v : Value) :
    ∀ get : PyStr → Except PyErr Value,
      evalValue get v ≠ Except.error PyErr.attributeError := by
  induction v using value_ind with
  | hstr s =>
      intro get
      simp only [evalValue]
      cases h : evalRefs get (findParamRefs s) s with
      | ok t => simp
      | error e =>
          have := evalRefs_ne_attr get (findParamRefs s) s
          rw [h] at this
          simp only [ne_eq, Except.error.injEq]
          intro hcontra
          exact this (by rw [hcontra])
  | hint n => intro get; simp [evalValue]
  | hbool b => intro get; simp [evalValue]
  | hnone => intro get; simp [evalValue]
  | hlist xs ih =>
      intro get
      have hl : ∀ ys : List Value, (∀ x ∈ ys, ∀ g, evalValue g x ≠ Except.error PyErr.attributeError) →
          evalVList get ys ≠ Except.error PyErr.attributeError := by
        intro ys
        induction ys with
        | nil => intro _; simp [evalVList]
        | cons y ys ihy =>
            intro hys
            simp only [evalVList]
            cases hy : evalValue get y with
            | error e =>
                have := hys y (List.mem_cons_self y ys) get
                rw [hy] at this
                simp only [ne_eq, Except.error.injEq]
                intro hc; cases hc; exact this rfl
            | ok w =>
                cases hrest : evalVList get ys with
                | error e =>
                    have := ihy (fun x hx g => hys x (List.mem_cons_of_mem y hx) g)
                    rw [hrest] at this
                    simp only [ne_eq, Except.error.injEq]
                    intro hc; cases hc; exact this rfl
                | ok ws => simp
      simp only [evalValue]
      cases h : evalVList get xs with
      | ok ys => simp
      | error e =>
          have := hl xs ih
          rw [h] at this
          simp only [ne_eq, Except.error.injEq]
          intro hc; cases hc; exact this rfl
  | hdict d ih =>
      intro get
      have hl : ∀ es : List (Value × Value),
          (∀ p ∈ es, ∀ g, evalValue g p.2 ≠ Except.error PyErr.attributeError) →
          evalVDict get es ≠ Except.error PyErr.attributeError := by
        intro es
        induction es with
        | nil => intro _; simp [evalVDict]
        | cons q qs ihq =>
            intro hqs
            obtain ⟨k, v0⟩ := q
            simp only [evalVDict]
            cases hv : evalValue get v0 with
            | error e =>
                have := hqs (k, v0) (List.mem_cons_self _ qs) get
                rw [hv] at this
                simp only [ne_eq, Except.error.injEq]
                intro hc; cases hc; exact this rfl
            | ok w =>
                cases hrest : evalVDict get qs with
                | error e =>
                    have := ihq (fun p hp g => hqs p (List.mem_cons_of_mem _ hp) g)
                    rw [hrest] at this
                    simp only [ne_eq, Except.error.injEq]
                    intro hc; cases hc; exact this rfl
                | ok d2 => simp
      simp only [evalValue]
      cases h : evalVDict get d with
      | ok d2 => simp
      | error e =>
          have := hl d ih
          rw [h] at this
          simp only [ne_eq, Except.error.injEq]
          intro hc; cases hc; exact this rfl

theorem evalParam_ne_attr (fuel : Nat) (store : Store) (v : Value) :
    evalParam fuel store v ≠ Except.error PyErr.attributeError := by
  cases fuel with
  | zero => exact evalValue_ne_attr v _
  | succ f => exact evalValue_ne_attr v _

/-! ### Claim C6 -/

/-- C6 counterexample: the claim says `get` normalizes its argument, making a
setting stored under `FOO` retrievable as `foo`.  With `FOO` set, the
normalized form of `foo` is stored, yet `getValue('foo')` raises the
unknown-setting error. -/
theorem getValue_lowercase_raises :
    getValue 1 [(pystr "FOO", Value.vint 1)] (pystr "foo") =
      Except.error PyErr.attributeError ∧
    pyUpper (pystr "foo") = pystr "FOO" ∧
    lookupStore [(pystr "FOO", Value.vint 1)] (pystr "FOO") =
      some (Value.vint 1) := ⟨rfl, rfl, rfl⟩

/-- C6 amended: `getValue` applies no normalization to its argument; it
raises the unknown-setting error (`AttributeError`) exactly when the name,
as given, is absent from the store — and in particular never falls back to a
default value.  No other code path of resolution lets an `AttributeError`
escape, so the equivalence is exact. -/
theorem getValue_unknown_iff_absent (fuel : Nat) (store : Store)
    (name : PyStr) :
    getValue fuel store name = Except.error PyErr.attributeError ↔
      lookupStore store name = none := by
  constructor
  · intro h
    cases hl : lookupStore store name with
    | none => rfl
    | some v =>
        rw [getValue, getBase, hl] at h
        by_cases htp : name = TPname
        · simp [htp] at h
        · simp only [htp, if_false] at h
          exact absurd h (evalParam_ne_attr fuel store v)
  · intro h
    simp [getValue, getBase, h]

/-! ### No placeholders: resolution is the identity -/

theorem evalValue_noRefs (v : Value) :
    ∀ get : PyStr → Except PyErr Value,
      noRefs v = true → evalValue get v = Except.ok v := by
  induction v using value_ind with
  | hstr s =>
      intro get h
      simp only [noRefs, List.isEmpty_iff] at h
      simp [evalValue, h, evalRefs]
  | hint n => intro get _; simp [evalValue]
  | hbool b => intro get _; simp [evalValue]
  | hnone => intro get _; simp [evalValue]
  | hlist xs ih =>
      intro get h
      have hl : ∀ ys : List Value,
          (∀ x ∈ ys, ∀ g, noRefs x = true → evalValue g x = Except.ok x) →
          noRefsList ys = true → evalVList get ys = Except.ok ys := by
        intro ys
        induction ys with
        | nil => intro _ _; rfl
        | cons y ys ihy =>
            intro hys hall
            simp only [noRefsList, Bool.and_eq_true] at hall
            rw [evalVList, hys y (List.mem_cons_self y ys) get hall.1,
              ihy (fun x hx g => hys x (List.mem_cons_of_mem y hx) g) hall.2]
      simp only [noRefs] at h
      simp [evalValue, hl xs ih h]
  | hdict d ih =>
      intro get h
      have hl : ∀ es : List (Value × Value),
          (∀ p ∈ es, ∀ g, noRefs p.2 = true → evalValue g p.2 = Except.ok p.2) →
          noRefsDict es = true → evalVDict get es = Except.ok es := by
        intro es
        induction es with
        | nil => intro _ _; rfl
        | cons q qs ihq =>
            intro hqs hall
            obtain ⟨k, v0⟩ := q
            simp only [noRefsDict, Bool.and_eq_true] at hall
            rw [evalVDict, hqs (k, v0) (List.mem_cons_self _ qs) get hall.1,
              ihq (fun p hp g => hqs p (List.mem_cons_of_mem _ hp) g) hall.2]
      simp only [noRefs] at h
      simp [evalValue, hl d ih h]

/-! ### Claim C7 -/

/-- C7: a stored value with no `#PARAM` occurrence anywhere — be it a string
without matches, a sequence, a mapping, or a non-string scalar — is returned
by `getValue` unchanged: same sequence elements in the same order, all
mapping keys kept, scalars identical. -/
theorem getValue_no_placeholders_id (fuel : Nat) (store : Store)
    (name : PyStr) (v : Value) (hl : lookupStore store name = some v)
    (hn : noRefs v = true) : getValue fuel store name = Except.ok v := by
  rw [getValue, getBase, hl]
  by_cases htp : name = TPname
  · simp [htp]
  · simp only [htp, if_false]
    cases fuel with
    | zero => exact evalValue_noRefs v _ hn
    | succ f => exact evalValue_noRefs v _ hn

/-- Witness for `getValue_no_placeholders_id`: a mixed macro-free value (a
list holding a string, an int, a dict and a bool) comes back exactly as
stored. -/
theorem getValue_no_placeholders_id_witness :
    getValue 0
      [(pystr "L", Value.vlist [Value.vstr (pystr "plain"), Value.vint 3,
        Value.vdict [(Value.vstr (pystr "k"), Value.vnone)], Value.vbool true])]
      (pystr "L")
      = Except.ok (Value.vlist [Value.vstr (pystr "plain"), Value.vint 3,
        Value.vdict [(Value.vstr (pystr "k"), Value.vnone)], Value.vbool true]) :=
  getValue_no_placeholders_id 0 _ (pystr "L") _ rfl rfl

/-! ### Dictionary lookup lemmas -/

theorem pyEq_vstr_iff (s : PyStr) (k : Value) :
    pyEq (Value.vstr s) k = true ↔ k = Value.vstr s := by
  cases k <;> simp [pyEq]
  case vstr t => exact ⟨fun h => by rw [h], fun h => by cases h; rfl⟩

theorem lookupD_append_some {q : Value} {xs : List (Value × Value)} {w : Value}
    (h : lookupD q xs = some w) (ys : List (Value × Value)) :
    lookupD q (xs ++ ys) = some w := by
  induction xs with
  | nil => simp [lookupD] at h
  | cons p rest ih =>
      obtain ⟨k0, v0⟩ := p
      rw [lookupD] at h
      by_cases hk : pyEq q k0 = true
      · rw [if_pos hk] at h
        simp only [List.cons_append, lookupD, if_pos hk]
        exact h
      · rw [if_neg hk] at h
        simp only [List.cons_append, lookupD, if_neg hk]
        exact ih h

theorem lookupD_append_none {q : Value} {xs : List (Value × Value)}
    (h : lookupD q xs = none) (ys : List (Value × Value)) :
    lookupD q (xs ++ ys) = lookupD q ys := by
  induction xs with
  | nil => simp
  | cons p rest ih =>
      obtain ⟨k0, v0⟩ := p
      rw [lookupD] at h
      by_cases hk : pyEq q k0 = true
      · rw [if_pos hk] at h; cases h
      · rw [if_neg hk] at h
        simp only [List.cons_append, lookupD, if_neg hk]
        exact ih h

theorem lookupD_none_keys {s : PyStr} {nd : List (Value × Value)}
    (h : lookupD (Value.vstr s) nd = none) :
    ∀ k ∈ nd.map Prod.fst, pyEq (Value.vstr s) k = false := by
  induction nd with
  | nil => simp
  | cons p rest ih =>
      obtain ⟨k0, v0⟩ := p
      rw [lookupD] at h
      by_cases hk : pyEq (Value.vstr s) k0 = true
      · rw [if_pos hk] at h; cases h
      · rw [if_neg hk] at h
        intro k hkmem
        rcases List.mem_cons.mp hkmem with rfl | h2
        · exact Bool.eq_false_iff.mpr hk
        · exact ih h k h2

theorem lookupD_some_mem_keys {s : PyStr} {nd : List (Value × Value)} {v : Value}
    (h : lookupD (Value.vstr s) nd = some v) :
    Value.vstr s ∈ nd.map Prod.fst := by
  induction nd with
  | nil => simp [lookupD] at h
  | cons p rest ih =>
      obtain ⟨k0, v0⟩ := p
      rw [lookupD] at h
      by_cases hk : pyEq (Value.vstr s) k0 = true
      · have := (pyEq_vstr_iff s k0).mp hk
        simp [this]
      · rw [if_neg hk] at h
        simp only [List.map_cons, List.mem_cons]
        exact Or.inr (ih h)

/-! ### Merge phase lemmas -/

theorem mergeP1_keys (rec : Value → Value → Except PyErr Value) (new : Value)
    (od od1 : List (Value × Value)) (q : Value)
    (h : mergeP1 rec new od = Except.ok od1) :
    (lookupD q od1).isSome = (lookupD q od).isSome := by
  induction od generalizing od1 with
  | nil =>
      rw [mergeP1] at h
      cases h
      rfl
  | cons p rest ih =>
      obtain ⟨k0, vo⟩ := p
      rw [mergeP1] at h
      cases hc : containsVal k0 new with
      | error e => rw [hc] at h; cases h
      | ok b =>
          rw [hc] at h
          cases b with
          | false =>
              cases hrest : mergeP1 rec new rest with
              | error e => rw [hrest] at h; cases h
              | ok rest2 =>
                  rw [hrest] at h
                  cases h
                  simp only [lookupD]
                  by_cases hk : pyEq q k0 = true
                  · simp [hk]
                  · simp [hk, ih rest2 hrest]
          | true =>
              cases hv2 : mergeEntryVal rec new k0 vo with
              | error e => rw [hv2] at h; cases h
              | ok v2 =>
                  rw [hv2] at h
                  cases hrest : mergeP1 rec new rest with
                  | error e => rw [hrest] at h; cases h
                  | ok rest2 =>
                      rw [hrest] at h
                      cases h
                      simp only [lookupD]
                      by_cases hk : pyEq q k0 = true
                      · simp [hk]
                      · simp [hk, ih rest2 hrest]

theorem mergeP1_preserves (rec : Value → Value → Except PyErr Value)
    (nd : List (Value × Value)) (od od1 : List (Value × Value)) (s : PyStr)
    (h : mergeP1 rec (Value.vdict nd) od = Except.ok od1)
    (habs : lookupD (Value.vstr s) nd = none) :
    lookupD (Value.vstr s) od1 = lookupD (Value.vstr s) od := by
  induction od generalizing od1 with
  | nil =>
      rw [mergeP1] at h
      cases h
      rfl
  | cons p rest ih =>
      obtain ⟨k0, vo⟩ := p
      rw [mergeP1] at h
      cases hc : containsVal k0 (Value.vdict nd) with
      | error e => rw [hc] at h; cases h
      | ok b =>
          rw [hc] at h
          cases b with
          | false =>
              cases hrest : mergeP1 rec (Value.vdict nd) rest with
              | error e => rw [hrest] at h; cases h
              | ok rest2 =>
                  rw [hrest] at h
                  cases h
                  simp only [lookupD]
                  by_cases hk : pyEq (Value.vstr s) k0 = true
                  · simp [hk]
                  · simp [hk, ih rest2 hrest]
          | true =>
              cases hv2 : mergeEntryVal rec (Value.vdict nd) k0 vo with
              | error e => rw [hv2] at h; cases h
              | ok v2 =>
                  rw [hv2] at h
                  cases hrest : mergeP1 rec (Value.vdict nd) rest with
                  | error e => rw [hrest] at h; cases h
                  | ok rest2 =>
                      rw [hrest] at h
                      cases h
                      by_cases hk : pyEq (Value.vstr s) k0 = true
                      · -- then k0 is exactly the query string, so the
                        -- membership test in `nd` must have come out false
                        have hk0 := (pyEq_vstr_iff s k0).mp hk
                        subst hk0
                        rw [containsVal] at hc
                        simp only [isUnhashable, if_false] at hc
                        rw [habs] at hc
                        cases hc
                      · simp only [lookupD, hk]
                        simp [ih rest2 hrest]

theorem mergeP2_only_appends (od rd : List (Value × Value)) (ks : List Value)
    (new : Value) (q w : Value)
    (h : mergeP2 od ks new = Except.ok rd)
    (hq : lookupD q od = some w) :
    lookupD q rd = some w := by
  induction ks generalizing od with
  | nil =>
      rw [mergeP2] at h
      cases h
      exact hq
  | cons k rest ih =>
      rw [mergeP2] at h
      cases hc : containsVal k (Value.vdict od) with
      | error e => rw [hc] at h; cases h
      | ok b =>
          rw [hc] at h
          cases b with
          | true => exact ih od h hq
          | false =>
              cases hs : subscriptV new k with
              | error e => rw [hs] at h; cases h
              | ok v =>
                  rw [hs] at h
                  exact ih _ h (lookupD_append_some hq _)

theorem mergeP2_preserves (od rd : List (Value × Value)) (ks : List Value)
    (new : Value) (s : PyStr)
    (h : mergeP2 od ks new = Except.ok rd)
    (hks : ∀ k ∈ ks, pyEq (Value.vstr s) k = false) :
    lookupD (Value.vstr s) rd = lookupD (Value.vstr s) od := by
  induction ks generalizing od with
  | nil =>
      rw [mergeP2] at h
      cases h
      rfl
  | cons k rest ih =>
      rw [mergeP2] at h
      cases hc : containsVal k (Value.vdict od) with
      | error e => rw [hc] at h; cases h
      | ok b =>
          rw [hc] at h
          cases b with
          | true => exact ih od h (fun x hx => hks x (List.mem_cons_of_mem k hx))
          | false =>
              cases hs : subscriptV new k with
              | error e => rw [hs] at h; cases h
              | ok v =>
                  rw [hs] at h
                  rw [ih _ h (fun x hx => hks x (List.mem_cons_of_mem k hx))]
                  cases hlk : lookupD (Value.vstr s) od with
                  | some w => exact lookupD_append_some hlk _
                  | none =>
                      rw [lookupD_append_none hlk]
                      have hf := hks k (List.mem_cons_self k rest)
                      simp [lookupD, hf]

theorem mergeP2_adds (od rd : List (Value × Value)) (ks : List Value)
    (nd : List (Value × Value)) (s : PyStr) (v : Value)
    (h : mergeP2 od ks (Value.vdict nd) = Except.ok rd)
    (habs : lookupD (Value.vstr s) od = none)
    (hmem : Value.vstr s ∈ ks)
    (hval : lookupD (Value.vstr s) nd = some v) :
    lookupD (Value.vstr s) rd = some v := by
  induction ks generalizing od with
  | nil => cases hmem
  | cons k rest ih =>
      rw [mergeP2] at h
      by_cases hk : k = Value.vstr s
      · subst hk
        rw [containsVal] at h
        simp only [isUnhashable, if_false] at h
        rw [habs] at h
        simp only [Option.isSome_none] at h
        rw [subscriptV] at h
        simp only [isUnhashable, if_false] at h
        rw [hval] at h
        have hin : lookupD (Value.vstr s) (od ++ [(Value.vstr s, v)]) = some v := by
          rw [lookupD_append_none habs]
          simp [lookupD, pyEq]
        exact mergeP2_only_appends _ _ _ _ _ _ h hin
      · cases hc : containsVal k (Value.vdict od) with
        | error e => rw [hc] at h; cases h
        | ok b =>
            rw [hc] at h
            have hmem2 : Value.vstr s ∈ rest := by
              rcases List.mem_cons.mp hmem with heq | h2
              · exact absurd heq.symm hk
              · exact h2
            cases b with
            | true => exact ih od h habs hmem2
            | false =>
                cases hs : subscriptV (Value.vdict nd) k with
                | error e => rw [hs] at h; cases h
                | ok w =>
                    rw [hs] at h
                    refine ih _ h ?_ hmem2
                    rw [lookupD_append_none habs]
                    have : pyEq (Value.vstr s) k = false := by
                      cases hpe : pyEq (Value.vstr s) k
                      · rfl
                      · exact absurd ((pyEq_vstr_iff s k).mp hpe) (fun he => hk he)
                    simp [lookupD, this]

/-! ### Claim C3 -/

/-- C3 counterexample: the claim quantifies over every pair of keyed
mappings, but when `original` holds a mapping where `incoming` holds a
non-iterable scalar, the recursive merge raises `TypeError`
(`for key in new:` on an int) and no result exists — in particular
`merge(original, incoming)[k]` is not `original[k]` for the untouched key
`k`, and `z` is not added. -/
theorem merge_spec_type_clash_raises :
    merge_spec
      (Value.vdict [(Value.vstr (pystr "k"), Value.vint 7),
        (Value.vstr (pystr "a"), Value.vdict [])])
      (Value.vdict [(Value.vstr (pystr "a"), Value.vint 5),
        (Value.vstr (pystr "z"), Value.vint 9)]) =
      Except.error PyErr.typeError := rfl

/-- C3 amended: whenever `merge_spec` on two keyed mappings returns a result
(raises no exception), every key present in `original` and absent from
`incoming` keeps its original value in the result, and every key present in
`incoming` and absent from `original` is added with `incoming`'s value
as-is.  Keys are quantified as text, as in every mapping the loaders
produce. -/
theorem merge_spec_asymmetric (od nd rd : List (Value × Value)) (s : PyStr)
    (h : merge_spec (Value.vdict od) (Value.vdict nd) =
      Except.ok (Value.vdict rd)) :
    (lookupD (Value.vstr s) nd = none →
      lookupD (Value.vstr s) rd = lookupD (Value.vstr s) od) ∧
    (∀ v, lookupD (Value.vstr s) od = none →
      lookupD (Value.vstr s) nd = some v →
      lookupD (Value.vstr s) rd = some v) := by
  rw [merge_spec, mergeF] at h
  split at h
  · cases h
  · rename_i od1 hp1
    rw [show iterContents (Value.vdict nd) = Except.ok (nd.map Prod.fst) from rfl] at h
    split at h
    · cases h
    · rename_i ks hks
      have hks2 : ks = nd.map Prod.fst := by
        cases hks
        rfl
      subst hks2
      split at h
      · cases h
      · rename_i od2 hp2
        have hrd : od2 = rd := by
          cases h
          rfl
        subst hrd
        constructor
        · intro habs
          rw [mergeP2_preserves od1 od2 _ _ s hp2 (lookupD_none_keys habs)]
          exact mergeP1_preserves _ nd od od1 s hp1 habs
        · intro v habs hval
          have hod1 : lookupD (Value.vstr s) od1 = none := by
            have := mergeP1_keys _ (Value.vdict nd) od od1 (Value.vstr s) hp1
            rw [habs] at this
            exact Option.not_isSome_iff_eq_none.mp (by simp [this])
          exact mergeP2_adds od1 od2 _ nd s v hp2 hod1
            (lookupD_some_mem_keys hval) hval

/-- Witness for `merge_spec_asymmetric` on a concrete success:
`merge({a: 1}, {b: 2})` keeps `a` untouched and adds `b` as-is. -/
theorem merge_spec_asymmetric_witness :
    lookupD (Value.vstr (pystr "a"))
        [(Value.vstr (pystr "a"), Value.vint 1),
         (Value.vstr (pystr "b"), Value.vint 2)] =
      lookupD (Value.vstr (pystr "a")) [(Value.vstr (pystr "a"), Value.vint 1)] ∧
    lookupD (Value.vstr (pystr "b"))
        [(Value.vstr (pystr "a"), Value.vint 1),
         (Value.vstr (pystr "b"), Value.vint 2)] = some (Value.vint 2) := by
  constructor
  · exact (merge_spec_asymmetric [(Value.vstr (pystr "a"), Value.vint 1)]
      [(Value.vstr (pystr "b"), Value.vint 2)]
      [(Value.vstr (pystr "a"), Value.vint 1),
       (Value.vstr (pystr "b"), Value.vint 2)] (pystr "a") rfl).1 rfl
  · exact (merge_spec_asymmetric [(Value.vstr (pystr "a"), Value.vint 1)]
      [(Value.vstr (pystr "b"), Value.vint 2)]
      [(Value.vstr (pystr "a"), Value.vint 1),
       (Value.vstr (pystr "b"), Value.vint 2)] (pystr "b") rfl).2
      (Value.vint 2) rfl rfl

/-! ### Scanner lemmas -/

theorem spanP_snd_le (p : Char → Bool) (s : PyStr) :
    (spanP p s).2.length ≤ s.length := by
  induction s with
  | nil => simp [spanP]
  | cons c cs ih =>
      rw [spanP]
      by_cases hc : p c = true
      · simp only [hc, if_true]
        exact Nat.le_succ_of_le ih
      · simp [hc]

theorem matchPARAMAt_not_hash {c : Char} (cs : PyStr) (hc : c ≠ '#') :
    matchPARAMAt (c :: cs) = none := by
  unfold matchPARAMAt
  split
  · rename_i rest heq
    cases heq
    exact absurd rfl hc
  · rfl

theorem matchPARAMAt_rest_lt {s r : PyStr} {m : ParamRef}
    (h : matchPARAMAt s = some (m, r)) : r.length < s.length := by
  unfold matchPARAMAt at h
  split at h
  · rename_i rest
    split at h
    · rename_i base r1 hspan1
      split at h
      · cases h
      · split at h
        · rename_i acc r2 hspan2
          split at h
          · split at h
            · rename_i r3
              cases h
              have h1 : (')' :: r).length ≤ r1.length := by
                have := spanP_snd_le isAccChar r1
                rw [hspan2] at this
                exact this
              have h2 : r1.length ≤ rest.length := by
                have := spanP_snd_le isBaseChar rest
                rw [hspan1] at this
                exact this
              simp only [List.length_cons] at h1 ⊢
              omega
            · cases h
          · cases h
  · cases h

theorem matchPARAMAt_needle (post : PyStr) :
    matchPARAMAt (pystr "#PARAM(B)" ++ post) =
      some ((pystr "B", pystr "B", []), post) := rfl

theorem findAux_step (f : Nat) (c : Char) (cs : PyStr) :
    findAux (f + 1) (c :: cs) =
      match matchPARAMAt (c :: cs) with
      | some (m, rest) => m :: findAux f rest
      | none => findAux f cs := rfl

theorem findAux_congr :
    ∀ (n f g : Nat) (s : PyStr), s.length ≤ n → s.length ≤ f →
      s.length ≤ g → findAux f s = findAux g s := by
  intro n
  induction n with
  | zero =>
      intro f g s hn hf hg
      have hs : s = [] := List.eq_nil_of_length_eq_zero (Nat.le_zero.mp hn)
      subst hs
      cases f <;> cases g <;> rfl
  | succ n ih =>
      intro f g s hn hf hg
      cases s with
      | nil => cases f <;> cases g <;> rfl
      | cons c cs =>
          simp only [List.length_cons] at hn hf hg
          cases f with
          | zero => omega
          | succ f2 =>
              cases g with
              | zero => omega
              | succ g2 =>
                  rw [findAux_step, findAux_step]
                  cases hm : matchPARAMAt (c :: cs) with
                  | none => exact ih f2 g2 cs (by omega) (by omega) (by omega)
                  | some pr =>
                      obtain ⟨m, r⟩ := pr
                      have hr := matchPARAMAt_rest_lt hm
                      simp only [List.length_cons] at hr
                      show m :: findAux f2 r = m :: findAux g2 r
                      rw [ih f2 g2 r (by omega) (by omega) (by omega)]

theorem findParamRefs_cons_not_hash {c : Char} (cs : PyStr) (hc : c ≠ '#') :
    findParamRefs (c :: cs) = findParamRefs cs := by
  rw [findParamRefs, findParamRefs,
    show (c :: cs).length = cs.length + 1 from rfl, findAux_step,
    matchPARAMAt_not_hash cs hc]

theorem findParamRefs_no_hash (s : PyStr) (h : ∀ c ∈ s, c ≠ '#') :
    findParamRefs s = [] := by
  induction s with
  | nil => rfl
  | cons c cs ih =>
      rw [findParamRefs_cons_not_hash cs (h c (List.mem_cons_self c cs))]
      exact ih (fun x hx => h x (List.mem_cons_of_mem c hx))

theorem findParamRefs_skip (pre s : PyStr) (hpre : ∀ c ∈ pre, c ≠ '#') :
    findParamRefs (pre ++ s) = findParamRefs s := by
  induction pre with
  | nil => rfl
  | cons c cs ih =>
      rw [List.cons_append,
        findParamRefs_cons_not_hash _ (hpre c (List.mem_cons_self c cs))]
      exact ih (fun x hx => hpre x (List.mem_cons_of_mem c hx))

theorem findParamRefs_needle (post : PyStr) (hpost : ∀ c ∈ post, c ≠ '#') :
    findParamRefs (pystr "#PARAM(B)" ++ post) =
      [(pystr "B", pystr "B", [])] := by
  have h2 : findAux (post.length + 8) post = [] := by
    rw [findAux_congr (post.length + 8) (post.length + 8) post.length post
      (by omega) (by omega) (by omega)]
    exact findParamRefs_no_hash post hpost
  rw [findParamRefs,
    show (pystr "#PARAM(B)" ++ post).length = (post.length + 8) + 1 by
      simp [pystr, List.length_append]]
  show findAux ((post.length + 8) + 1) ('#' :: (pystr "PARAM(B)" ++ post))
    = [(pystr "B", pystr "B", [])]
  rw [findAux_step,
    show matchPARAMAt ('#' :: (pystr "PARAM(B)" ++ post)) =
      some ((pystr "B", pystr "B", []), post) from matchPARAMAt_needle post]
  show (pystr "B", pystr "B", ([] : PyStr)) :: findAux (post.length + 8) post
    = [(pystr "B", pystr "B", [])]
  rw [h2]

/-! ### Replacement lemmas -/

theorem isPrefixL_append_self (xs ys : PyStr) :
    isPrefixL xs (xs ++ ys) = true := by
  induction xs with
  | nil => rfl
  | cons c cs ih => simp [isPrefixL, ih]

theorem splitOnPat_no_head (t s : PyStr) (h : ∀ c ∈ s, c ≠ '#') :
    splitOnPat ('#' :: t) s = [s] := by
  induction s with
  | nil => rw [splitOnPat]
  | cons c cs ih =>
      rw [splitOnPat]
      have hc : c ≠ '#' := h c (List.mem_cons_self c cs)
      have hpr : isPrefixL ('#' :: t) (c :: cs) = false := by
        simp only [isPrefixL, Bool.and_eq_false_iff]
        left
        simp [beq_eq_false_iff_ne]
        exact fun he => hc he.symm
      rw [if_neg (by simp [hpr])]
      rw [ih (fun x hx => h x (List.mem_cons_of_mem c hx))]

theorem splitOnPat_needle (post : PyStr) (hpost : ∀ c ∈ post, c ≠ '#') :
    splitOnPat ('#' :: pystr "PARAM(B)") ('#' :: (pystr "PARAM(B)" ++ post)) =
      [[], post] := by
  rw [splitOnPat]
  rw [if_pos ⟨by decide, by
    exact isPrefixL_append_self ('#' :: pystr "PARAM(B)") post⟩]
  show [] :: splitOnPat ('#' :: pystr "PARAM(B)") post = [[], post]
  rw [splitOnPat_no_head (pystr "PARAM(B)") post hpost]

theorem splitOnPat_skip (t pre x : PyStr) (hpre : ∀ c ∈ pre, c ≠ '#')
    (seg : PyStr) (rest : List PyStr)
    (hx : splitOnPat ('#' :: t) x = seg :: rest) :
    splitOnPat ('#' :: t) (pre ++ x) = (pre ++ seg) :: rest := by
  induction pre with
  | nil => simpa using hx
  | cons c cs ih =>
      rw [List.cons_append, splitOnPat]
      have hc : c ≠ '#' := hpre c (List.mem_cons_self c cs)
      have hpr : isPrefixL ('#' :: t) (c :: (cs ++ x)) = false := by
        simp only [isPrefixL, Bool.and_eq_false_iff]
        left
        simp [beq_eq_false_iff_ne]
        exact fun he => hc he.symm
      rw [if_neg (by simp [hpr])]
      rw [ih (fun y hy => hpre y (List.mem_cons_of_mem c hy))]
      rfl

theorem replaceAll_single (pre post rep : PyStr)
    (hpre : ∀ c ∈ pre, c ≠ '#') (hpost : ∀ c ∈ post, c ≠ '#') :
    replaceAll (pre ++ pystr "#PARAM(B)" ++ post) (pystr "#PARAM(B)") rep =
      pre ++ rep ++ post := by
  rw [replaceAll, List.append_assoc]
  show joinWith rep (splitOnPat ('#' :: pystr "PARAM(B)")
    (pre ++ ('#' :: (pystr "PARAM(B)" ++ post)))) = pre ++ rep ++ post
  rw [splitOnPat_skip (pystr "PARAM(B)") pre ('#' :: (pystr "PARAM(B)" ++ post))
    hpre [] [post] (splitOnPat_needle post hpost)]
  rw [List.append_nil]
  rfl

/-! ### Single-placeholder resolution -/

theorem evalRefs_single_unknown (get : PyStr → Except PyErr Value)
    (text : PyStr) (hB : get (pystr "B") = Except.error PyErr.attributeError) :
    evalRefs get [(pystr "B", pystr "B", [])] text = Except.ok text := by
  simp [evalRefs, evalOneRef, parseAccessors, parseAccAux, hB, caughtErr]

theorem evalRefs_single_ok (get : PyStr → Except PyErr Value)
    (text : PyStr) (w : Value) (hB : get (pystr "B") = Except.ok w) :
    evalRefs get [(pystr "B", pystr "B", [])] text =
      Except.ok (replaceAll text (pystr "#PARAM(B)") (pyStrOf w)) := by
  have hneedle : needleOf (pystr "B") = pystr "#PARAM(B)" := rfl
  simp [evalRefs, evalOneRef, parseAccessors, parseAccAux, hB, applySubs,
    hneedle]

theorem evalValue_vstr (get : PyStr → Except PyErr Value) (s : PyStr) :
    evalValue get (Value.vstr s) =
      match evalRefs get (findParamRefs s) s with
      | Except.ok t => Except.ok (Value.vstr t)
      | Except.error e => Except.error e := rfl

theorem getBase_unknown (store : Store) (k : Value → Except PyErr Value)
    (base : PyStr) (h : lookupStore store base = none) :
    getBase store k base = Except.error PyErr.attributeError := by
  simp [getBase, h]

theorem getBase_known (store : Store) (k : Value → Except PyErr Value)
    (base : PyStr) (bv : Value) (h : lookupStore store base = some bv)
    (htp : base ≠ TPname) : getBase store k base = k bv := by
  simp [getBase, h, htp]

/-! ### Claim C2 -/

/-- C2: lazy re-resolution.  Take any store holding under `A` a string that
embeds the single placeholder `#PARAM(B)` between hash-free text, with `B`
not yet set.  Before `B` is set, `getValue(A)` returns the raw text with the
placeholder intact (for any fuel — no macro recursion happens).  After `B` is
set to any non-null value whose own resolution yields `w`, `getValue(A)`
returns the text with the placeholder replaced by the textual form of `w` —
resolution is re-run on every read, so the definition order of `A` and `B`
does not matter. -/
theorem getValue_lazy_reresolution (f0 f : Nat) (s1 : Store)
    (A pre post : PyStr) (bv w : Value)
    (hA : lookupStore s1 A =
      some (Value.vstr (pre ++ pystr "#PARAM(B)" ++ post)))
    (hAtp : A ≠ TPname)
    (hpre : ∀ c ∈ pre, c ≠ '#') (hpost : ∀ c ∈ post, c ≠ '#')
    (hB : lookupStore s1 (pystr "B") = none)
    (hbv : isNone bv = false)
    (hw : evalParam f (setKey s1 (pystr "B") bv) bv = Except.ok w) :
    getValue f0 s1 A =
      Except.ok (Value.vstr (pre ++ pystr "#PARAM(B)" ++ post)) ∧
    getValue (f + 1) (setValue s1 (some (pystr "B")) bv) A =
      Except.ok (Value.vstr (pre ++ pyStrOf w ++ post)) := by
  have hfind : findParamRefs (pre ++ pystr "#PARAM(B)" ++ post) =
      [(pystr "B", pystr "B", [])] := by
    rw [List.append_assoc, findParamRefs_skip pre _ hpre,
      findParamRefs_needle post hpost]
  constructor
  · rw [getValue, getBase_known s1 _ A _ hA hAtp]
    cases f0 with
    | zero =>
        rw [evalParam, evalValue_vstr, hfind,
          evalRefs_single_unknown _ _
            (getBase_unknown s1 (fun _ => Except.error PyErr.recursionError)
              (pystr "B") hB)]
    | succ f1 =>
        rw [evalParam, evalValue_vstr, hfind,
          evalRefs_single_unknown _ _
            (getBase_unknown s1 (evalParam f1 s1) (pystr "B") hB)]
  · have hs2 : setValue s1 (some (pystr "B")) bv = setKey s1 (pystr "B") bv := by
      simp [setValue, hbv]
    rw [hs2]
    have hA2 : lookupStore (setKey s1 (pystr "B") bv) A =
        some (Value.vstr (pre ++ pystr "#PARAM(B)" ++ post)) := by
      rw [lookup_setKey_ne s1 (pystr "B") A bv]
      · exact hA
      · intro he
        rw [he] at hB
        rw [hA] at hB
        cases hB
    rw [getValue, getBase_known _ _ A _ hA2 hAtp]
    rw [evalParam, evalValue_vstr, hfind]
    have hBlook : lookupStore (setKey s1 (pystr "B") bv) (pystr "B") = some bv :=
      lookup_setKey_self s1 (pystr "B") bv
    rw [evalRefs_single_ok _ _ w
      (by rw [getBase_known _ _ (pystr "B") bv hBlook (by decide)]; exact hw)]
    rw [replaceAll_single pre post (pyStrOf w) hpre hpost]

/-- Witness for `getValue_lazy_reresolution`: with `A = "ip=#PARAM(B)!"` and
`B` unset, the read returns the raw text; after `setValue('B', 42)`, the same
read returns `"ip=42!"`. -/
theorem getValue_lazy_reresolution_witness :
    getValue 0 [(pystr "A", Value.vstr (pystr "ip=#PARAM(B)!"))] (pystr "A") =
      Except.ok (Value.vstr (pystr "ip=#PARAM(B)!")) ∧
    getValue 1
        (setValue [(pystr "A", Value.vstr (pystr "ip=#PARAM(B)!"))]
          (some (pystr "B")) (Value.vint 42)) (pystr "A") =
      Except.ok (Value.vstr (pystr "ip=42!")) := by
  have h := getValue_lazy_reresolution 0 0
    [(pystr "A", Value.vstr (pystr "ip=#PARAM(B)!"))] (pystr "A")
    (pystr "ip=") (pystr "!") (Value.vint 42) (Value.vint 42)
    rfl (by decide) (by decide) (by decide) rfl rfl rfl
  refine ⟨h.1, ?_⟩
  rw [h.2]
  simp only [pyStrOf]
  rfl
